import Mathlib

/-!
Shallow embedding of the archive-index, retention, rate-detection and
email-classification core of the `cftg-edc` worker
(`src/shared/storage.js`, `src/email/email.js`, `src/email/encoding.js`).

JavaScript numbers holding byte sizes and TTLs are modelled as `Nat`;
epoch-millisecond timestamps and the running `totalSize` accumulator
(which may transiently go negative before the final clamp) are `Int`.
The floating-point eviction score is modelled with exact rational
arithmetic (`ℚ`).  Asynchronous KV side effects (payload deletes,
snapshot writes) carry no data relevant to the claims and are dropped;
where a function's observable behaviour depends on whether a KV write
happens, that fact is returned as part of the result.
-/

namespace CftgEdc

/-- One retained image attachment of an archive entry:
`{ idx, size, ttl }` (filename/mime are irrelevant to retention). -/
structure Image where
  idx : Nat
  size : Nat
  ttl : Nat
  deriving Repr, DecidableEq

/-- One archive entry of the email index (`src/shared/storage.js`):
`{ id, ts, starred, textSize, images }`.  `textSize` absent in JS is
modelled as `0` (the code always reads it as `textSize || 0`). -/
structure Entry where
  id : Nat
  ts : Int
  starred : Bool
  textSize : Nat
  images : List Image
  deriving Repr, DecidableEq

/-- The archive index snapshot: `{ entries, totalSize }`. -/
structure EmailIndex where
  entries : List Entry
  totalSize : Int
  deriving Repr, DecidableEq

/-- Total byte contribution of one entry: `textSize` plus the sizes of
all its images (the expression `(entry.textSize || 0) +
(entry.images || []).reduce((s, img) => s + img.size, 0)`). -/
def entrySize (e : Entry) : Nat :=
  e.textSize + e.images.foldl (fun s img => s + img.size) 0

/-- Source `calcStorageUsage(index)`: accumulate `textSize` and every image
size over all entries (storage.js lines 442–449). -/
def calcStorageUsage (index : EmailIndex) : Nat :=
  index.entries.foldl (fun total e =>
    total + e.textSize + e.images.foldl (fun s img => s + img.size) 0) 0

/-- The expiry condition of `cleanExpiredEntries` for one entry:
unstarred, text TTL elapsed, and every image TTL elapsed (vacuously
when there are no images) — storage.js lines 457–465. -/
def expiredCond (now : Int) (emlTtl : Nat) (e : Entry) : Bool :=
  !e.starred &&
    (decide (now > e.ts + (emlTtl : Int) * 1000)) &&
    (e.images.isEmpty ||
      e.images.all (fun img => decide (now > e.ts + (img.ttl : Int) * 1000)))

/-- The backward splice loop of `cleanExpiredEntries` (storage.js lines
455–470): iterating `i` from the last index down to `0`, an expired
unstarred entry is spliced out, pushed onto `removed`, and its byte
contribution accumulated.  Returns (surviving entries, removed entries
in the order the loop pushed them, total bytes removed). -/
def cleanLoop (now : Int) (emlTtl : Nat) :
    List Entry → List Entry × List Entry × Nat
  | [] => ([], [], 0)
  | e :: rest =>
    let (kept, removed, sz) := cleanLoop now emlTtl rest
    if expiredCond now emlTtl e then (kept, removed ++ [e], sz + entrySize e)
    else (e :: kept, removed, sz)

/-- Source `cleanExpiredEntries(index, env)` (storage.js lines 451–473): sweep
expired unstarred entries, decrement `totalSize` by exactly what was
removed, clamp a negative `totalSize` to `0`, return the removed
entries.  `now` and the configured text TTL are explicit arguments. -/
def cleanExpiredEntries (now : Int) (emlTtl : Nat) (index : EmailIndex) :
    EmailIndex × List Entry :=
  let (kept, removed, sz) := cleanLoop now emlTtl index.entries
  let total := index.totalSize - (sz : Int)
  ({ entries := kept, totalSize := if total < 0 then 0 else total }, removed)

/-- Source `checkEmailRate(env)` success path (storage.js lines 411–426): drop
persisted timestamps with `now - ts >= window`, append `now`, report
whether the count strictly exceeds the threshold.  Returns the flag
together with the list that is persisted back. -/
def checkEmailRate (now : Int) (threshold window : Nat)
    (stored : List Int) : Bool × List Int :=
  let timestamps := stored.filter (fun ts => decide (now - ts < (window : Int)))
  let timestamps := timestamps ++ [now]
  (decide (timestamps.length > threshold), timestamps)

/-- The expression `Math.max(emlTtl, ...images.map(img => img.ttl), 1)` — the largest
retention promise (in seconds) attached to an entry (storage.js lines
492–496). -/
def maxTtlOf (emlTtl : Nat) (e : Entry) : Nat :=
  max (e.images.foldl (fun m img => max m img.ttl) emlTtl) 1

/-- The eviction score of one entry (storage.js line 498):
`0.4 * (entrySize / 5MiB) + 0.6 * (age / maxTtlMs)`.  JavaScript
floating point is modelled by exact rational arithmetic. -/
def score (now : Int) (emlTtl : Nat) (e : Entry) : ℚ :=
  let maxTtlMs : ℚ := (maxTtlOf emlTtl e : ℚ) * 1000
  (0.4 : ℚ) * ((entrySize e : ℚ) / (5 * 1024 * 1024)) +
    (0.6 : ℚ) * (((now - e.ts : Int) : ℚ) / maxTtlMs)

/-- The candidate scan inside `evictForSpace`'s while loop (storage.js
lines 483–504): starting from `bestIdx = -1`, `bestScore = -1`, visit
every entry in order, skip starred ones, and record the index whenever
the score strictly exceeds the best so far.  `bestIdx = -1` is modelled
as `none`.  `bestStep` is the loop body for one indexed entry. -/
def bestStep (now : Int) (emlTtl : Nat) (best : Option Nat × ℚ)
    (p : Nat × Entry) : Option Nat × ℚ :=
  if p.2.starred then best
  else if score now emlTtl p.2 > best.2 then (some p.1, score now emlTtl p.2)
  else best

/-- The full candidate scan: fold `bestStep` over the indexed entries. -/
def bestCandidate (now : Int) (emlTtl : Nat) (entries : List Entry) :
    Option Nat × ℚ :=
  entries.enum.foldl (bestStep now emlTtl) (none, (-1 : ℚ))

/-- The while loop of `evictForSpace` (storage.js lines 482–520): while
`totalSize > target`, pick the best candidate; if none, break;
otherwise delete its payloads (a KV effect carrying no data), decrement
`totalSize` by its byte contribution, splice it out, and count it.
The `none` branch of the index lookup has no counterpart in the source
(JavaScript indexes unconditionally); it is unreachable because the
scan only ever returns in-range indexes, as `evictLoop_spec` proves. -/
def evictLoop (now : Int) (emlTtl : Nat) (target : Int)
    (index : EmailIndex) (evicted : Nat) : EmailIndex × Nat :=
  if index.totalSize > target then
    match (bestCandidate now emlTtl index.entries).1 with
    | none => (index, evicted)
    | some bestIdx =>
      match hget : index.entries[bestIdx]? with
      | none => (index, evicted)
      | some entry =>
        evictLoop now emlTtl target
          { entries := index.entries.eraseIdx bestIdx,
            totalSize := index.totalSize - (entrySize entry : Int) }
          (evicted + 1)
  else (index, evicted)
termination_by index.entries.length
decreasing_by
  have hlt : bestIdx < index.entries.length := by
    by_contra hge
    simp [List.getElem?_eq_none (Nat.le_of_not_lt hge)] at hget
  simpa [List.length_eraseIdx, hlt] using Nat.sub_lt (Nat.lt_of_le_of_lt (Nat.zero_le _) hlt) Nat.one_pos

/-- Source `evictForSpace(env, index, needed)` (storage.js lines 475–524):
run the eviction loop against `target = maxStorage - needed`, then
clamp a negative `totalSize` to `0`.  Returns the final index and the
eviction count. -/
def evictForSpace (now : Int) (emlTtl maxStorage needed : Nat)
    (index : EmailIndex) : EmailIndex × Nat :=
  let target : Int := (maxStorage : Int) - (needed : Int)
  let r := evictLoop now emlTtl target index 0
  ({ r.1 with totalSize := if r.1.totalSize < 0 then 0 else r.1.totalSize },
   r.2)

/-- Source `trimOldEntries(env, idx)` (storage.js lines 543–561): if the
unstarred population exceeds the entry cap, sort the unstarred entries
by ascending timestamp, mark the oldest surplus ones by id, delete
their payloads, drop every index entry whose id is marked, and recompute
`totalSize` from scratch.  Returns the pruned index and the number of
pruned entries. -/
def trimOldEntries (maxEntries : Nat) (idx : EmailIndex) :
    EmailIndex × Nat :=
  let nonStarred := idx.entries.filter (fun e => !e.starred)
  if nonStarred.length ≤ maxEntries then (idx, 0)
  else
    let sorted := nonStarred.mergeSort (fun a b => decide (a.ts ≤ b.ts))
    let excess := sorted.take (sorted.length - maxEntries)
    let excessIds := excess.map (fun e => e.id)
    let entries2 := idx.entries.filter (fun e => !excessIds.contains e.id)
    ({ entries := entries2,
       totalSize := (calcStorageUsage { entries := entries2, totalSize := 0 } : Int) },
     excess.length)

/-- The mutation `entry.starred = true` on the first entry whose id matches, exactly
as `idx.entries.find(e => e.id === notifId)` followed by an in-place
mutation of the found object (email.js lines 983–1002). -/
def setStarredFirst (notifId : Nat) : List Entry → List Entry
  | [] => []
  | e :: rest =>
    if e.id == notifId then { e with starred := true } :: rest
    else e :: setStarredFirst notifId rest

/-- The `star` branch of `handleEmailCallback` (email.js lines 981–1006):
find the entry; sum the sizes of all already-starred entries; if that
sum plus the target entry's own size exceeds the starred-storage limit,
leave the index untouched and do not write it back (only a toast is
shown); otherwise set `starred = true` and persist.  The returned `Bool`
records whether `setEmailIndex` was called. -/
def starEntry (starMax : Nat) (idx : EmailIndex) (notifId : Nat) :
    EmailIndex × Bool :=
  match idx.entries.find? (fun e => e.id == notifId) with
  | none => (idx, false)
  | some entry =>
    let starredSize := idx.entries.foldl
      (fun s e => if e.starred then s + entrySize e else s) 0
    let eSize := entrySize entry
    if starredSize + eSize > starMax then (idx, false)
    else ({ idx with entries := setStarredFirst notifId idx.entries }, true)

/-! ### Attachment classification (`src/email/email.js`) -/

/-- The five classifier verdicts. -/
inductive AttAction where
  | skip | ignore | listOnly | sendPhoto | sendDocument
  deriving Repr, DecidableEq

/-- An attachment payload: either a base64 string or a binary buffer of
which only `byteLength` is observable. -/
inductive AttContent where
  | b64 (s : String)
  | bin (byteLength : Nat)
  deriving Repr, DecidableEq

/-- A parsed attachment, as consumed by `classifyAttachment`. -/
structure Attachment where
  content : Option AttContent
  mimeType : String
  disposition : Option String
  related : Bool
  deriving Repr, DecidableEq

/-- JavaScript truthiness of `att.content`: absent and the empty string
are falsy; a buffer object is always truthy. -/
def contentTruthy : Option AttContent → Bool
  | none => false
  | some (.b64 s) => !s.isEmpty
  | some (.bin _) => true

/-- Source `getAttachmentSize(att)` (email.js lines 53–57): `0` without
payload, `Math.ceil(len * 3 / 4)` for a base64 string, `byteLength`
for a buffer. -/
def getAttachmentSize (att : Attachment) : Nat :=
  match att.content with
  | none => 0
  | some (.b64 s) => (s.length * 3 + 3) / 4
  | some (.bin n) => n

/-- The constant `IMAGE_TYPES` (email.js lines 33–36). -/
def IMAGE_TYPES : List String :=
  ["image/jpeg", "image/png", "image/webp", "image/bmp"]

/-- The constant `GIF_TYPE` (email.js line 37). -/
def GIF_TYPE : String := "image/gif"

/-- The constant `TRACKING_PIXEL_MAX_SIZE` (email.js line 31), the default used when
the `trackingSize` argument is null-ish. -/
def TRACKING_PIXEL_MAX_SIZE : Nat := 2048

/-- A classifier result `{ action, size, mime }`. -/
structure Classified where
  action : AttAction
  size : Nat
  mime : String
  deriving Repr, DecidableEq

/-- Source `classifyAttachment(att, maxSize, trackingSize)` (email.js lines
71–87), with `trackingSize ?? TRACKING_PIXEL_MAX_SIZE` modelled by an
`Option Nat` argument. -/
def classifyAttachment (att : Attachment) (maxSize : Nat)
    (trackingSizeArg : Option Nat) : Classified :=
  let trackingSize := trackingSizeArg.getD TRACKING_PIXEL_MAX_SIZE
  let size := getAttachmentSize att
  let mime := att.mimeType.toLower
  let isImage := IMAGE_TYPES.contains mime
  let isGif := mime == GIF_TYPE
  let isInline := att.disposition == some "inline" || att.related
  if !contentTruthy att.content then ⟨.skip, size, mime⟩
  else if isImage && isInline && decide (size < trackingSize) then
    ⟨.ignore, size, mime⟩
  else if decide (size > maxSize) then ⟨.listOnly, size, mime⟩
  else if isGif then ⟨.sendDocument, size, mime⟩
  else if isImage then ⟨.sendPhoto, size, mime⟩
  else ⟨.sendDocument, size, mime⟩

/-! ### Charset recovery (`src/email/encoding.js`) -/

/-- The Unicode replacement character U+FFFD. -/
def replacementChar : Char := Char.ofNat 0xFFFD

/-- Source `detectGarbled(text)` (encoding.js lines 5–8): falsy text is not
garbled; otherwise garbled iff it contains U+FFFD (`text.includes`,
checked over the character sequence). -/
def detectGarbled (text : String) : Bool :=
  if text.data.isEmpty then false else text.data.contains replacementChar

/-- The `{ text, charset }` record produced by a successful fallback
decode. -/
structure DecodeResult where
  text : String
  charset : String
  deriving Repr, DecidableEq

/-- Source `tryFixBodyEncoding(rawBytes, parsedText, parsedHtml)` (encoding.js
lines 123–140).  The two helpers it calls — `extractRawTextBody`
(regex-driven MIME re-parsing) and `tryDecodeBytes` (platform
`TextDecoder` fallback decoding) — are taken as oracle arguments, since
the claims about this function concern only its garble detection and
field-replacement branching, which are embedded concretely. -/
def tryFixBodyEncoding (extractRawTextBody : List Nat → Option (List Nat))
    (tryDecodeBytes : List Nat → Option DecodeResult)
    (rawBytes : List Nat) (parsedText parsedHtml : String) :
    String × String :=
  let textGarbled := detectGarbled parsedText
  let htmlGarbled := detectGarbled parsedHtml
  if !textGarbled && !htmlGarbled then (parsedText, parsedHtml)
  else
    match extractRawTextBody rawBytes with
    | none => (parsedText, parsedHtml)
    | some rawBodyBytes =>
      match tryDecodeBytes rawBodyBytes with
      | none => (parsedText, parsedHtml)
      | some result =>
        if textGarbled then (result.text, parsedHtml)
        else (parsedText, result.text)

/-! ### Structural stripper (`src/shared/storage.js`, `buildStrippedEml`)

JavaScript strings are sequences of UTF-16 code units; the stripper
only ever produces BMP code points, so a JS string is modelled as a
`List Nat` of code-unit values.  String literals of the source are
injected through `jstr`. -/

/-- The UTF-16 code units of a Lean string literal (all literals used
by the stripper are ASCII, where code unit = code point). -/
def jstr (s : String) : List Nat := s.data.map Char.toNat

/-- The WHATWG windows-1252 index for bytes `0x80`–`0x9F` that do not
map to themselves (`0x81`, `0x8D`, `0x8F`, `0x90`, `0x9D` map to the
identical C1 control and are covered by the identity fallback).  The
WHATWG Encoding Standard resolves the label `latin1` — the label the
source passes to `TextDecoder` — to windows-1252, not to the identity
ISO-8859-1 mapping. -/
def windows1252Hi : List (Nat × Nat) :=
  [(0x80, 0x20AC), (0x82, 0x201A), (0x83, 0x0192), (0x84, 0x201E),
   (0x85, 0x2026), (0x86, 0x2020), (0x87, 0x2021), (0x88, 0x02C6),
   (0x89, 0x2030), (0x8A, 0x0160), (0x8B, 0x2039), (0x8C, 0x0152),
   (0x8E, 0x017D), (0x91, 0x2018), (0x92, 0x2019), (0x93, 0x201C),
   (0x94, 0x201D), (0x95, 0x2022), (0x96, 0x2013), (0x97, 0x2014),
   (0x98, 0x02DC), (0x99, 0x2122), (0x9A, 0x0161), (0x9B, 0x203A),
   (0x9C, 0x0153), (0x9E, 0x017E), (0x9F, 0x0178)]

/-- Decode one byte with the windows-1252 decoder (the behaviour of
`new TextDecoder('latin1')` per the WHATWG Encoding Standard): bytes
below `0x80` and the five unmapped C1 bytes decode to themselves, the
remaining `0x8x`/`0x9x` bytes decode through the index. -/
def windows1252Decode (b : Nat) : Nat :=
  match windows1252Hi.find? (fun p => p.1 == b) with
  | some p => p.2
  | none => b

/-- The call `new TextDecoder('latin1').decode(rawBytes)` (storage.js line 340). -/
def decodeLatin1 (bytes : List Nat) : List Nat :=
  bytes.map windows1252Decode

/-- The re-encoding loop `bytes[i] = stripped.charCodeAt(i) & 0xFF`
(storage.js lines 369–370). -/
def encodeTrunc (units : List Nat) : List Nat :=
  units.map (fun u => u % 256)

/-- ASCII-case-insensitive prefix test: does `s` start with the
(lower-case) pattern `pat`, comparing case-insensitively as a
JavaScript `/.../i` regex does on ASCII letters? -/
def lowerIsPrefixOf : List Nat → List Nat → Bool
  | [], _ => true
  | _ :: _, [] => false
  | p :: ps, c :: cs =>
    (if 65 ≤ c && c ≤ 90 then c + 32 else c) == p && lowerIsPrefixOf ps cs

/-- The character class `\s` of a JavaScript regex, restricted to the
ASCII whitespace actually occurring in mail headers. -/
def isWsUnit (c : Nat) : Bool := c == 32 || c == 9 || c == 13 || c == 10

/-- A code unit ending the boundary token: the class `[\s";]` that
terminates the capture of `/boundary="?([^\s";]+)"?/i`. -/
def isBoundaryDelim (c : Nat) : Bool := isWsUnit c || c == 34 || c == 59

/-- Maximal run of boundary-token characters. -/
def takeBoundaryTok : List Nat → List Nat
  | [] => []
  | c :: rest => if isBoundaryDelim c then [] else c :: takeBoundaryTok rest

/-- Attempt the regex `/boundary="?([^\s";]+)"?/i` at the head of the
input: the literal `boundary=` (case-insensitive), an optional quote,
then a non-empty capture of non-delimiter characters. -/
def matchBoundaryAt (s : List Nat) : Option (List Nat) :=
  if lowerIsPrefixOf (jstr "boundary=") s then
    let rest := s.drop 9
    let rest := match rest with
      | 34 :: r => r
      | r => r
    let tok := takeBoundaryTok rest
    if tok.isEmpty then none else some tok
  else none

/-- The search `raw.match(/boundary="?([^\s";]+)"?/i)` (storage.js line 342):
first position where the pattern matches wins. -/
def findBoundary : List Nat → Option (List Nat)
  | [] => none
  | c :: rest =>
    match matchBoundaryAt (c :: rest) with
    | some b => some b
    | none => findBoundary rest

/-- JavaScript `String.prototype.split` with a non-empty plain-string
separator: split at every leftmost non-overlapping occurrence.  The
accumulator holds the current field reversed; the `fuel` argument is a
structural-recursion device only — it starts at the input length and
always dominates it (a separator match consumes at least one
character), so the fuel-exhausted fallback is never reached. -/
def splitSeqGo (sep : List Nat) : Nat → List Nat → List Nat → List (List Nat)
  | _, [], acc => [acc.reverse]
  | 0, l, acc => [acc.reverse ++ l]
  | fuel + 1, c :: rest, acc =>
    if !sep.isEmpty && sep.isPrefixOf (c :: rest) then
      acc.reverse :: splitSeqGo sep fuel ((c :: rest).drop sep.length) []
    else splitSeqGo sep fuel rest (c :: acc)

/-- The call `s.split(sep)` for a non-empty separator. -/
def splitSeq (sep s : List Nat) : List (List Nat) :=
  splitSeqGo sep s.length s []

/-- The steps `part.indexOf('\r\n\r\n')` and `part.substring(0, hEnd)` (storage.js
lines 354–357): the header block of a part, when the CRLFCRLF header
terminator occurs in it. -/
def headersOf (part : List Nat) : Option (List Nat) :=
  match splitSeq (jstr "\x0d\x0a\x0d\x0a") part with
  | h :: _ :: _ => some h
  | _ => none

/-- The class `[^\r\n;]` capturing the Content-Type value. -/
def isCtValUnit (c : Nat) : Bool := !(c == 13 || c == 10 || c == 59)

/-- Maximal run of Content-Type value characters. -/
def takeCtVal : List Nat → List Nat
  | [] => []
  | c :: rest => if isCtValUnit c then c :: takeCtVal rest else []

/-- Backtracking of the greedy `\s*` in
`/Content-Type:\s*([^\r\n;]+)/i`: starting from the longest whitespace
run, retreat until a non-empty capture is possible. -/
def ctBacktrack (l : List Nat) : Nat → Option (List Nat)
  | 0 =>
    let t := takeCtVal l
    if t.isEmpty then none else some t
  | m + 1 =>
    let t := takeCtVal (l.drop (m + 1))
    if t.isEmpty then ctBacktrack l m else some t

/-- Attempt `/Content-Type:\s*([^\r\n;]+)/i` at the head of the input. -/
def matchCtAt (s : List Nat) : Option (List Nat) :=
  if lowerIsPrefixOf (jstr "content-type:") s then
    let afterLit := s.drop 13
    ctBacktrack afterLit ((afterLit.takeWhile isWsUnit).length)
  else none

/-- The search `partHeaders.match(/Content-Type:\s*([^\r\n;]+)/i)` (storage.js
line 358): first position where the whole pattern (including a
non-empty capture) matches. -/
def findCt : List Nat → Option (List Nat)
  | [] => none
  | c :: rest =>
    match matchCtAt (c :: rest) with
    | some v => some v
    | none => findCt rest

/-- The method `.trim()` on a code-unit sequence. -/
def trimUnits (l : List Nat) : List Nat :=
  ((l.dropWhile isWsUnit).reverse.dropWhile isWsUnit).reverse

/-- The method `.toLowerCase()` on a code-unit sequence (ASCII letters; mail
content types are ASCII). -/
def lowerUnits (l : List Nat) : List Nat :=
  l.map (fun c => if 65 ≤ c && c ≤ 90 then c + 32 else c)

/-- The expression `ct ? ct[1].trim().toLowerCase() : ''` (storage.js line 359). -/
def contentTypeOf (partHeaders : List Nat) : List Nat :=
  match findCt partHeaders with
  | some v => lowerUnits (trimUnits v)
  | none => []

/-- The body of the per-part loop of `buildStrippedEml` (storage.js
lines 350–366): part `0` (the preamble) and parts without a CRLFCRLF
header terminator are kept verbatim; a part whose Content-Type starts
with `text/` or `multipart/` is kept verbatim; any other part is
replaced by its headers followed by the placeholder. -/
def stripPart (i : Nat) (part : List Nat) : List Nat :=
  if i == 0 then part
  else
    match headersOf part with
    | none => part
    | some partHeaders =>
      let contentType := contentTypeOf partHeaders
      if (jstr "text/").isPrefixOf contentType ||
          (jstr "multipart/").isPrefixOf contentType then part
      else partHeaders ++ jstr "\x0d\x0a\x0d\x0a[attachment removed]\x0d\x0a"

/-- Source `buildStrippedEml(rawEmail)` (storage.js lines 338–372): decode the
bytes with `TextDecoder('latin1')`, return the bytes unchanged when no
boundary parameter matches, otherwise split on `'--' + boundary`,
process every part, rejoin with the separator, and re-encode with
`charCodeAt(i) & 0xFF`. -/
def buildStrippedEml (rawBytes : List Nat) : List Nat :=
  let raw := decodeLatin1 rawBytes
  match findBoundary raw with
  | none => rawBytes
  | some boundary =>
    let sep := jstr "--" ++ boundary
    let parts := splitSeq sep raw
    let result := parts.enum.map (fun p => stripPart p.1 p.2)
    encodeTrunc (List.intercalate sep result)

/-! ### Concrete example data

Small concrete indexes and inputs used to instantiate the theorems. -/

/-- A starred entry: id 3, ingested at epoch 0, 700 bytes of text. -/
def wEntryStar : Entry := { id := 3, ts := 0, starred := true, textSize := 700, images := [] }

/-- An old, large unstarred entry: id 1, epoch 0, 5000 bytes of text and
one 1000-byte image with a 60-second TTL. -/
def wEntryOldBig : Entry :=
  { id := 1, ts := 0, starred := false, textSize := 5000,
    images := [{ idx := 0, size := 1000, ttl := 60 }] }

/-- A newer, small unstarred entry: id 2, epoch 500000, 100 bytes. -/
def wEntryNewSmall : Entry :=
  { id := 2, ts := 500000, starred := false, textSize := 100, images := [] }

/-- An unstarred entry whose text TTL has elapsed but whose single image
TTL has not: id 4, epoch 0, a 10-byte image kept for 10^9 seconds. -/
def wEntryImgAlive : Entry :=
  { id := 4, ts := 0, starred := false, textSize := 50,
    images := [{ idx := 0, size := 10, ttl := 1000000000 }] }

/-- An index holding the three basic example entries, with `totalSize`
satisfying the aggregate-usage invariant (700 + 6000 + 100). -/
def wIndex : EmailIndex :=
  { entries := [wEntryStar, wEntryOldBig, wEntryNewSmall], totalSize := 6800 }

/-- An index adding the text-expired/image-alive entry (6860 bytes). -/
def wIndexImg : EmailIndex :=
  { entries := [wEntryStar, wEntryOldBig, wEntryNewSmall, wEntryImgAlive],
    totalSize := 6860 }

/-- A two-part multipart message whose single `text/plain` part body is
the lone byte `0x80`: the bytes of
`Content-Type: multipart/mixed; boundary=b CRLF CRLF --b CRLF
Content-Type: text/plain CRLF CRLF 0x80 CRLF --b-- CRLF`. -/
def c8FailingInput : List Nat :=
  jstr "Content-Type: multipart/mixed; boundary=b\r\n\r\n--b\r\nContent-Type: text/plain\r\n\r\n"
    ++ [0x80] ++ jstr "\r\n--b--\r\n"

/-! ## Supporting lemmas -/

theorem calcStorageUsage_foldl (l : List Entry) (a : Nat) :
    l.foldl (fun total e =>
      total + e.textSize + e.images.foldl (fun s img => s + img.size) 0) a =
      a + (l.map entrySize).sum := by
  induction l generalizing a with
  | nil => simp
  | cons e rest ih =>
    rw [List.foldl_cons, ih]
    simp [entrySize]
    omega

theorem calcStorageUsage_eq_sum (idx : EmailIndex) :
    calcStorageUsage idx = (idx.entries.map entrySize).sum := by
  simpa using calcStorageUsage_foldl idx.entries 0

theorem sum_map_filter_partition (p : Entry → Bool) (l : List Entry) :
    ((l.filter p).map entrySize).sum +
      ((l.filter (fun e => !p e)).map entrySize).sum =
      (l.map entrySize).sum := by
  induction l with
  | nil => simp
  | cons e rest ih =>
    by_cases he : p e <;> simp [he, Nat.add_assoc, Nat.add_left_comm, ih]

theorem cleanLoop_eq (now : Int) (emlTtl : Nat) (l : List Entry) :
    cleanLoop now emlTtl l =
      (l.filter (fun e => !expiredCond now emlTtl e),
       (l.filter (expiredCond now emlTtl)).reverse,
       ((l.filter (expiredCond now emlTtl)).map entrySize).sum) := by
  induction l with
  | nil => simp [cleanLoop]
  | cons e rest ih =>
    by_cases he : expiredCond now emlTtl e <;>
      simp [cleanLoop, ih, he, Nat.add_comm]

theorem sum_map_eraseIdx (l : List Entry) (i : Nat) (e : Entry)
    (h : l[i]? = some e) :
    ((l.eraseIdx i).map entrySize).sum + entrySize e =
      (l.map entrySize).sum := by
  induction l generalizing i with
  | nil => simp at h
  | cons x rest ih =>
    cases i with
    | zero =>
      simp at h
      subst h
      simp [Nat.add_comm]
    | succ j =>
      simp only [List.getElem?_cons_succ] at h
      simp [List.eraseIdx_cons_succ, ← ih j h]
      omega

theorem mem_eraseIdx_of_ne {l : List Entry} {i : Nat} {v e : Entry}
    (hmem : e ∈ l) (hget : l[i]? = some v) (hne : v ≠ e) :
    e ∈ l.eraseIdx i := by
  induction l generalizing i with
  | nil => simp at hmem
  | cons x rest ih =>
    cases i with
    | zero =>
      simp at hget
      subst hget
      rcases List.mem_cons.mp hmem with h | h
      · exact absurd h.symm hne
      · simpa using h
    | succ j =>
      simp only [List.getElem?_cons_succ] at hget
      rcases List.mem_cons.mp hmem with h | h
      · simp [List.eraseIdx_cons_succ, h]
      · simp [List.eraseIdx_cons_succ, ih h hget]

theorem bestFold_spec (now : Int) (emlTtl : Nat) (l : List (Nat × Entry)) :
    ∀ acc : Option Nat × ℚ,
      acc.2 ≤ (l.foldl (bestStep now emlTtl) acc).2 ∧
      (∀ p ∈ l, p.2.starred = false →
        score now emlTtl p.2 ≤ (l.foldl (bestStep now emlTtl) acc).2) ∧
      ((l.foldl (bestStep now emlTtl) acc) = acc ∨
        ∃ p ∈ l, p.2.starred = false ∧
          (l.foldl (bestStep now emlTtl) acc).1 = some p.1 ∧
          (l.foldl (bestStep now emlTtl) acc).2 = score now emlTtl p.2 ∧
          acc.2 < (l.foldl (bestStep now emlTtl) acc).2) := by
  induction l with
  | nil => intro acc; simp
  | cons p rest ih =>
    intro acc
    rw [List.foldl_cons]
    by_cases hstar : p.2.starred
    · have hstep : bestStep now emlTtl acc p = acc := by
        simp [bestStep, hstar]
      rw [hstep]
      obtain ⟨ih1, ih2, ih3⟩ := ih acc
      refine ⟨ih1, ?_, ?_⟩
      · intro q hq hqs
        rcases List.mem_cons.mp hq with rfl | hq'
        · simp [hstar] at hqs
        · exact ih2 q hq' hqs
      · rcases ih3 with heq | ⟨q, hq, hqs, hq1, hq2, hq3⟩
        · exact Or.inl heq
        · exact Or.inr ⟨q, List.mem_cons_of_mem _ hq, hqs, hq1, hq2, hq3⟩
    · have hstar' : p.2.starred = false := by simpa using hstar
      by_cases hgt : score now emlTtl p.2 > acc.2
      · have hstep : bestStep now emlTtl acc p =
            (some p.1, score now emlTtl p.2) := by
          simp [bestStep, hstar', hgt]
        rw [hstep]
        obtain ⟨ih1, ih2, ih3⟩ := ih (some p.1, score now emlTtl p.2)
        refine ⟨le_trans (le_of_lt hgt) ih1, ?_, ?_⟩
        · intro q hq hqs
          rcases List.mem_cons.mp hq with rfl | hq'
          · exact ih1
          · exact ih2 q hq' hqs
        · rcases ih3 with heq | ⟨q, hq, hqs, hq1, hq2, hq3⟩
          · refine Or.inr ⟨p, List.mem_cons_self _ _, hstar', ?_, ?_, ?_⟩
            · rw [heq]
            · rw [heq]
            · rw [heq]; exact hgt
          · exact Or.inr ⟨q, List.mem_cons_of_mem _ hq, hqs, hq1, hq2,
              lt_trans hgt hq3⟩
      · have hstep : bestStep now emlTtl acc p = acc := by
          simp [bestStep, hstar', hgt]
        rw [hstep]
        obtain ⟨ih1, ih2, ih3⟩ := ih acc
        refine ⟨ih1, ?_, ?_⟩
        · intro q hq hqs
          rcases List.mem_cons.mp hq with rfl | hq'
          · exact le_trans (le_of_not_lt hgt) ih1
          · exact ih2 q hq' hqs
        · rcases ih3 with heq | ⟨q, hq, hqs, hq1, hq2, hq3⟩
          · exact Or.inl heq
          · exact Or.inr ⟨q, List.mem_cons_of_mem _ hq, hqs, hq1, hq2, hq3⟩

theorem bestCandidate_some_spec (now : Int) (emlTtl : Nat)
    (entries : List Entry) (i : Nat)
    (h : (bestCandidate now emlTtl entries).1 = some i) :
    ∃ e, entries[i]? = some e ∧ e.starred = false ∧
      (bestCandidate now emlTtl entries).2 = score now emlTtl e ∧
      ∀ e' ∈ entries, e'.starred = false →
        score now emlTtl e' ≤ score now emlTtl e := by
  obtain ⟨h1, h2, h3⟩ :=
    bestFold_spec now emlTtl entries.enum (none, (-1 : ℚ))
  simp only [bestCandidate] at h
  rcases h3 with heq | ⟨p, hp, hps, hp1, hp2, _⟩
  · rw [heq] at h
    simp at h
  · rw [hp1] at h
    have hpi : p.1 = i := by simpa using h
    have hget : entries[p.1]? = some p.2 :=
      List.mem_enum_iff_getElem?.mp hp
    refine ⟨p.2, hpi ▸ hget, hps, ?_, ?_⟩
    · simp only [bestCandidate]
      exact hp2
    · intro e' he' hes
      obtain ⟨n, hn⟩ := List.mem_iff_getElem?.mp he'
      have henum : ((n, e') : Nat × Entry) ∈ entries.enum :=
        List.mem_enum_iff_getElem?.mpr hn
      have hle := h2 (n, e') henum hes
      rw [hp2] at hle
      exact hle

theorem bestCandidate_none_iff (now : Int) (emlTtl : Nat)
    (entries : List Entry) :
    (bestCandidate now emlTtl entries).1 = none ↔
      ∀ e ∈ entries, e.starred = true ∨ score now emlTtl e ≤ -1 := by
  constructor
  · intro h e he
    by_cases hs : e.starred
    · exact Or.inl hs
    · right
      obtain ⟨h1, h2, h3⟩ :=
        bestFold_spec now emlTtl entries.enum (none, (-1 : ℚ))
      simp only [bestCandidate] at h
      rcases h3 with heq | ⟨p, _, _, hp1, _, _⟩
      · obtain ⟨n, hn⟩ := List.mem_iff_getElem?.mp he
        have henum : ((n, e) : Nat × Entry) ∈ entries.enum :=
          List.mem_enum_iff_getElem?.mpr hn
        have hle := h2 (n, e) henum (by simpa using hs)
        rw [heq] at hle
        exact hle
      · rw [hp1] at h
        simp at h
  · intro hall
    cases hsome : (bestCandidate now emlTtl entries).1 with
    | none => rfl
    | some i =>
      obtain ⟨e, hget, hes, _, _⟩ :=
        bestCandidate_some_spec now emlTtl entries i hsome
      obtain ⟨_, _, h3⟩ :=
        bestFold_spec now emlTtl entries.enum (none, (-1 : ℚ))
      rcases h3 with heq | ⟨p, hp, hps, hp1, hp2, hp3⟩
      · simp only [bestCandidate] at hsome
        rw [heq] at hsome
        simp at hsome
      · have hmem : p.2 ∈ entries :=
          List.getElem?_mem (List.mem_enum_iff_getElem?.mp hp)
        rcases hall p.2 hmem with hs | hle
        · rw [hps] at hs; cases hs
        · rw [hp2] at hp3
          simp only at hp3
          exact absurd hle (not_le.mpr hp3)

theorem evictLoop_spec (now : Int) (emlTtl : Nat) (target : Int)
    (index : EmailIndex) (ev : Nat) :
    (evictLoop now emlTtl target index ev).1.entries.length +
        (evictLoop now emlTtl target index ev).2 =
      index.entries.length + ev ∧
    ev ≤ (evictLoop now emlTtl target index ev).2 ∧
    ((evictLoop now emlTtl target index ev).1.totalSize ≤ target ∨
      (bestCandidate now emlTtl
        (evictLoop now emlTtl target index ev).1.entries).1 = none) ∧
    (∀ e ∈ index.entries, e.starred = true →
      e ∈ (evictLoop now emlTtl target index ev).1.entries) ∧
    (index.totalSize = ((index.entries.map entrySize).sum : Int) →
      (evictLoop now emlTtl target index ev).1.totalSize =
        (((evictLoop now emlTtl target index ev).1.entries.map
          entrySize).sum : Int)) := by
  induction index, ev using evictLoop.induct now emlTtl target with
  | case1 index ev h1 h2 =>
    have hred : evictLoop now emlTtl target index ev = (index, ev) := by
      rw [evictLoop.eq_def, if_pos h1]
      split
      · rfl
      · simp_all
    rw [hred]
    exact ⟨rfl, le_refl _, Or.inr h2, fun e he _ => he, fun h => h⟩
  | case2 index ev h1 bestIdx h2 h3 =>
    obtain ⟨e, hget, _⟩ := bestCandidate_some_spec now emlTtl _ _ h2
    rw [h3] at hget
    cases hget
  | case3 index ev h1 bestIdx h2 entry h3 ih =>
    have hred : evictLoop now emlTtl target index ev =
        evictLoop now emlTtl target
          { entries := index.entries.eraseIdx bestIdx,
            totalSize := index.totalSize - (entrySize entry : Int) }
          (ev + 1) := by
      rw [evictLoop.eq_def, if_pos h1]
      split
      · simp_all
      · split <;> simp_all
    rw [hred]
    obtain ⟨ih1, ih2, ih3, ih4, ih5⟩ := ih
    have hlt : bestIdx < index.entries.length := by
      by_contra hge
      simp [List.getElem?_eq_none (Nat.le_of_not_lt hge)] at h3
    have hlen : (index.entries.eraseIdx bestIdx).length =
        index.entries.length - 1 := by
      simp [List.length_eraseIdx, hlt]
    obtain ⟨e0, hget0, hstar0, _, _⟩ :=
      bestCandidate_some_spec now emlTtl _ _ h2
    have he0 : e0 = entry := by
      rw [h3] at hget0
      exact (Option.some.inj hget0).symm
    subst he0
    refine ⟨?_, ?_, ih3, ?_, ?_⟩
    · simp only [ih1, hlen]
      omega
    · omega
    · intro e he hes
      refine ih4 e ?_ hes
      exact mem_eraseIdx_of_ne he h3 (by rintro rfl; rw [hstar0] at hes; cases hes)
    · intro hinv
      refine ih5 ?_
      have hsum := sum_map_eraseIdx index.entries bestIdx e0 h3
      simp only [hinv]
      push_cast [← hsum]
      ring
  | case4 index ev h1 =>
    have hred : evictLoop now emlTtl target index ev = (index, ev) := by
      rw [evictLoop.eq_def, if_neg h1]
    rw [hred]
    exact ⟨rfl, le_refl _, Or.inl (le_of_not_lt h1), fun e he _ => he,
      fun h => h⟩

theorem isEmpty_or_all (l : List Image) (p : Image → Bool) :
    (l.isEmpty || l.all p) = l.all p := by
  cases l <;> simp

theorem expiredCond_iff (now : Int) (emlTtl : Nat) (e : Entry)
    (hstar : e.starred = false) :
    expiredCond now emlTtl e = true ↔
      (now > e.ts + (emlTtl : Int) * 1000 ∧
        ∀ img ∈ e.images, now > e.ts + (img.ttl : Int) * 1000) := by
  rw [expiredCond, isEmpty_or_all]
  simp [hstar, List.all_eq_true]

/-! ## Claims -/

/-- C1: for every archive index whose `totalSize` equals the sum over
all entries of `textSize` plus the sizes of all their images, each
mutating index operation — the expiry sweep `cleanExpiredEntries`, the
quota eviction `evictForSpace`, and the entry-count trim
`trimOldEntries` — preserves `index.totalSize == calcStorageUsage(index)`. -/
theorem mutations_preserve_totalSize_invariant
    (now : Int) (emlTtl maxStorage needed maxEntries : Nat)
    (index : EmailIndex)
    (h : index.totalSize = (calcStorageUsage index : Int)) :
    (cleanExpiredEntries now emlTtl index).1.totalSize =
      (calcStorageUsage (cleanExpiredEntries now emlTtl index).1 : Int) ∧
    (evictForSpace now emlTtl maxStorage needed index).1.totalSize =
      (calcStorageUsage (evictForSpace now emlTtl maxStorage needed index).1 : Int) ∧
    (trimOldEntries maxEntries index).1.totalSize =
      (calcStorageUsage (trimOldEntries maxEntries index).1 : Int) := by
  rw [calcStorageUsage_eq_sum] at h
  refine ⟨?_, ?_, ?_⟩
  · have hpart := sum_map_filter_partition (expiredCond now emlTtl) index.entries
    simp only [cleanExpiredEntries, cleanLoop_eq, calcStorageUsage_eq_sum]
    split <;> omega
  · have hspec := (evictLoop_spec now emlTtl
      ((maxStorage : Int) - (needed : Int)) index 0).2.2.2.2 h
    simp only [evictForSpace, calcStorageUsage_eq_sum]
    split <;> omega
  · simp only [trimOldEntries]
    split
    · rw [calcStorageUsage_eq_sum]
      exact h
    · simp only [calcStorageUsage_eq_sum]

/-- Witness for C1 at the concrete index `wIndex`. -/
theorem mutations_preserve_totalSize_invariant_witness :
    wIndex.totalSize = (calcStorageUsage wIndex : Int) ∧
    ((cleanExpiredEntries 1000000000 60 wIndex).1.totalSize =
      (calcStorageUsage (cleanExpiredEntries 1000000000 60 wIndex).1 : Int) ∧
    (evictForSpace 1000000000 60 0 0 wIndex).1.totalSize =
      (calcStorageUsage (evictForSpace 1000000000 60 0 0 wIndex).1 : Int) ∧
    (trimOldEntries 1 wIndex).1.totalSize =
      (calcStorageUsage (trimOldEntries 1 wIndex).1 : Int)) :=
  ⟨by decide,
   mutations_preserve_totalSize_invariant 1000000000 60 0 0 1 wIndex (by decide)⟩

/-- C2: an entry with `starred == true` is never removed: not by the
expiry sweep `cleanExpiredEntries`, not by the quota eviction
`evictForSpace`, and — provided entry ids are pairwise distinct, as the
data model assigns them from unique notification-message ids — not by
the entry-count trim `trimOldEntries`. -/
theorem starred_entry_never_removed
    (now : Int) (emlTtl maxStorage needed maxEntries : Nat)
    (index : EmailIndex) (e : Entry)
    (hmem : e ∈ index.entries) (hstar : e.starred = true) :
    e ∈ (cleanExpiredEntries now emlTtl index).1.entries ∧
    e ∈ (evictForSpace now emlTtl maxStorage needed index).1.entries ∧
    ((index.entries.map Entry.id).Nodup →
      e ∈ (trimOldEntries maxEntries index).1.entries) := by
  refine ⟨?_, ?_, ?_⟩
  · simp only [cleanExpiredEntries, cleanLoop_eq]
    refine List.mem_filter.mpr ⟨hmem, ?_⟩
    simp [expiredCond, hstar]
  · have hspec := (evictLoop_spec now emlTtl
      ((maxStorage : Int) - (needed : Int)) index 0).2.2.2.1 e hmem hstar
    simpa [evictForSpace] using hspec
  · intro hnodup
    have hcontra : ∀ x, x ∈ ((index.entries.filter (fun e => !e.starred)).mergeSort
        (fun a b => decide (a.ts ≤ b.ts))).take
          (((index.entries.filter (fun e => !e.starred)).mergeSort
            (fun a b => decide (a.ts ≤ b.ts))).length - maxEntries) →
        x.id = e.id → False := by
      intro x hx hxid
      have hxsorted := List.take_subset _ _ hx
      have hxns : x ∈ index.entries.filter (fun e => !e.starred) :=
        (List.mergeSort_perm _ _).subset hxsorted
      have hxmem := (List.mem_filter.mp hxns).1
      have hxstar : x.starred = false := by
        have := (List.mem_filter.mp hxns).2
        simpa using this
      have hxe : x = e :=
        List.inj_on_of_nodup_map hnodup hxmem hmem hxid
      rw [hxe, hstar] at hxstar
      cases hxstar
    simp only [trimOldEntries]
    split
    · exact hmem
    · refine List.mem_filter.mpr ⟨hmem, ?_⟩
      have hnotin : e.id ∉ (((index.entries.filter (fun e => !e.starred)).mergeSort
          (fun a b => decide (a.ts ≤ b.ts))).take
            (((index.entries.filter (fun e => !e.starred)).mergeSort
              (fun a b => decide (a.ts ≤ b.ts))).length - maxEntries)).map
            (fun e => e.id) := by
        intro hin
        obtain ⟨x, hx, hxid⟩ := List.mem_map.mp hin
        exact hcontra x hx hxid
      simpa using hnotin

/-- Witness for C2 at the starred entry of `wIndex`. -/
theorem starred_entry_never_removed_witness :
    (wEntryStar ∈ wIndex.entries ∧ wEntryStar.starred = true ∧
      (wIndex.entries.map Entry.id).Nodup) ∧
    (wEntryStar ∈ (cleanExpiredEntries 1000000000 60 wIndex).1.entries ∧
      wEntryStar ∈ (evictForSpace 1000000000 60 0 0 wIndex).1.entries ∧
      wEntryStar ∈ (trimOldEntries 1 wIndex).1.entries) := by
  have h := starred_entry_never_removed 1000000000 60 0 0 1 wIndex wEntryStar
    (by decide) (by decide)
  exact ⟨⟨by decide, by decide, by decide⟩, h.1, h.2.1, h.2.2 (by decide)⟩

/-- C3: the expiry sweep removes an unstarred entry exactly when both
the text TTL and every image TTL have elapsed (vacuously for no
images); in particular an unstarred entry with a surviving image is
kept even when the text TTL alone has elapsed. -/
theorem cleanExpiredEntries_removes_iff
    (now : Int) (emlTtl : Nat) (index : EmailIndex) (e : Entry)
    (hmem : e ∈ index.entries) (hstar : e.starred = false) :
    (e ∈ (cleanExpiredEntries now emlTtl index).1.entries ↔
      ¬(now > e.ts + (emlTtl : Int) * 1000 ∧
        ∀ img ∈ e.images, now > e.ts + (img.ttl : Int) * 1000)) ∧
    ((∃ img ∈ e.images, ¬ now > e.ts + (img.ttl : Int) * 1000) →
      e ∈ (cleanExpiredEntries now emlTtl index).1.entries) := by
  have hiff : e ∈ (cleanExpiredEntries now emlTtl index).1.entries ↔
      ¬(now > e.ts + (emlTtl : Int) * 1000 ∧
        ∀ img ∈ e.images, now > e.ts + (img.ttl : Int) * 1000) := by
    simp only [cleanExpiredEntries, cleanLoop_eq]
    rw [List.mem_filter]
    rw [← expiredCond_iff now emlTtl e hstar]
    simp [hmem]
  refine ⟨hiff, ?_⟩
  intro ⟨img, himg, hlive⟩
  refine hiff.mpr ?_
  rintro ⟨-, hall⟩
  exact hlive (hall img himg)

/-- Witness for C3 at the text-expired/image-alive entry of
`wIndexImg`. -/
theorem cleanExpiredEntries_removes_iff_witness :
    (wEntryImgAlive ∈ wIndexImg.entries ∧ wEntryImgAlive.starred = false) ∧
    wEntryImgAlive ∈ (cleanExpiredEntries 1000000 60 wIndexImg).1.entries := by
  have h := cleanExpiredEntries_removes_iff 1000000 60 wIndexImg wEntryImgAlive
    (by decide) (by decide)
  exact ⟨⟨by decide, by decide⟩, h.2 (by decide)⟩

/-- C4: on each iteration of the eviction loop, the entry removed is an
unstarred entry of maximal score
`0.4 * (entrySize / 5MiB) + 0.6 * (entryAge / maxTtlMs)` (here in exact
rational arithmetic), and with equal per-entry `maxTtlMs` a
larger-and-older unstarred entry never scores below a
smaller-and-newer one. -/
theorem evictLoop_removes_max_score
    (now : Int) (emlTtl : Nat) (target : Int) (index : EmailIndex)
    (ev i : Nat) (entry : Entry)
    (hguard : index.totalSize > target)
    (hbest : (bestCandidate now emlTtl index.entries).1 = some i)
    (hget : index.entries[i]? = some entry) :
    (evictLoop now emlTtl target index ev =
      evictLoop now emlTtl target
        { entries := index.entries.eraseIdx i,
          totalSize := index.totalSize - (entrySize entry : Int) }
        (ev + 1)) ∧
    entry.starred = false ∧
    (∀ e' ∈ index.entries, e'.starred = false →
      score now emlTtl e' ≤ score now emlTtl entry) ∧
    (∀ e1 e2 : Entry, e1.starred = false → e2.starred = false →
      entrySize e2 ≤ entrySize e1 → now - e2.ts ≤ now - e1.ts →
      maxTtlOf emlTtl e1 = maxTtlOf emlTtl e2 →
      score now emlTtl e2 ≤ score now emlTtl e1) := by
  obtain ⟨e0, hget0, hstar0, _, hmax⟩ :=
    bestCandidate_some_spec now emlTtl index.entries i hbest
  have he0 : e0 = entry := by
    rw [hget] at hget0
    exact (Option.some.inj hget0).symm
  subst he0
  refine ⟨?_, hstar0, hmax, ?_⟩
  · rw [evictLoop.eq_def, if_pos hguard]
    split
    · simp_all
    · split <;> simp_all
  · intro e1 e2 _ _ hsize hage hm
    have hc : (0 : ℚ) < 5 * 1024 * 1024 := by norm_num
    have h1le : (1 : ℚ) ≤ (maxTtlOf emlTtl e2 : ℚ) := by
      exact_mod_cast Nat.le_max_right
        (e2.images.foldl (fun m img => max m img.ttl) emlTtl) 1
    have hm0 : (0 : ℚ) < (maxTtlOf emlTtl e2 : ℚ) * 1000 := by nlinarith
    have hsizeQ : (entrySize e2 : ℚ) ≤ (entrySize e1 : ℚ) := by
      exact_mod_cast hsize
    have hageQ : ((now - e2.ts : Int) : ℚ) ≤ ((now - e1.ts : Int) : ℚ) := by
      exact_mod_cast hage
    simp only [score, hm]
    have hd1 : (entrySize e2 : ℚ) / (5 * 1024 * 1024) ≤
        (entrySize e1 : ℚ) / (5 * 1024 * 1024) :=
      (div_le_div_iff_of_pos_right hc).mpr hsizeQ
    have hd2 : ((now - e2.ts : Int) : ℚ) / ((maxTtlOf emlTtl e2 : ℚ) * 1000) ≤
        ((now - e1.ts : Int) : ℚ) / ((maxTtlOf emlTtl e2 : ℚ) * 1000) :=
      (div_le_div_iff_of_pos_right hm0).mpr hageQ
    nlinarith [hd1, hd2]

/-- Witness for C4: in `wIndex` with the quota fully exceeded the loop
first removes `wEntryOldBig` (index 1), the larger-and-older entry. -/
theorem evictLoop_removes_max_score_witness :
    (wIndex.totalSize > (0 : Int) ∧
      (bestCandidate 1000000000 60 wIndex.entries).1 = some 1 ∧
      wIndex.entries[1]? = some wEntryOldBig) ∧
    (evictLoop 1000000000 60 0 wIndex 0 =
      evictLoop 1000000000 60 0
        { entries := wIndex.entries.eraseIdx 1,
          totalSize := wIndex.totalSize - (entrySize wEntryOldBig : Int) } 1 ∧
    wEntryOldBig.starred = false ∧
    (∀ e' ∈ wIndex.entries, e'.starred = false →
      score 1000000000 60 e' ≤ score 1000000000 60 wEntryOldBig)) := by
  have hbest : (bestCandidate 1000000000 60 wIndex.entries).1 = some 1 := by
    norm_num [bestCandidate, bestStep, score, entrySize, maxTtlOf,
      List.enum, List.enumFrom, wIndex, wEntryStar, wEntryOldBig, wEntryNewSmall]
  have h := evictLoop_removes_max_score 1000000000 60 0 wIndex 0 1 wEntryOldBig
    (by decide) hbest (by decide)
  exact ⟨⟨by decide, hbest, by decide⟩, h.1, h.2.1, h.2.2.1⟩

/-- C9: the eviction loop terminates for every index and needed-bytes
value: it visits at most `index.entries.length` iterations, each
removing one entry, and it stops exactly when `totalSize` no longer
exceeds `maxStorage - neededBytes` or when no candidate remains
(`bestIdx == -1`, i.e. every remaining entry is starred or scores at
most the `-1` sentinel); the quota may then still be exceeded and the
function returns normally. -/
theorem evictForSpace_bounded_termination
    (now : Int) (emlTtl maxStorage needed : Nat) (index : EmailIndex) :
    ((evictForSpace now emlTtl maxStorage needed index).1.entries.length +
        (evictForSpace now emlTtl maxStorage needed index).2 =
      index.entries.length) ∧
    ((evictForSpace now emlTtl maxStorage needed index).2 ≤
      index.entries.length) ∧
    ((evictLoop now emlTtl ((maxStorage : Int) - (needed : Int)) index 0).1.totalSize ≤
        (maxStorage : Int) - (needed : Int) ∨
      (bestCandidate now emlTtl
        (evictLoop now emlTtl ((maxStorage : Int) - (needed : Int)) index 0).1.entries).1 =
        none) ∧
    (∀ l : List Entry, (bestCandidate now emlTtl l).1 = none ↔
      ∀ e ∈ l, e.starred = true ∨ score now emlTtl e ≤ -1) := by
  obtain ⟨h1, _, h3, _, _⟩ :=
    evictLoop_spec now emlTtl ((maxStorage : Int) - (needed : Int)) index 0
  refine ⟨?_, ?_, h3, fun l => bestCandidate_none_iff now emlTtl l⟩
  · simpa [evictForSpace] using h1
  · have : (evictForSpace now emlTtl maxStorage needed index).2 =
        (evictLoop now emlTtl ((maxStorage : Int) - (needed : Int)) index 0).2 := by
      simp [evictForSpace]
    omega

/-- C5: `checkEmailRate` returns `true` iff, after discarding persisted
timestamps whose age reaches the window and appending the current
timestamp, the count strictly exceeds the threshold; with threshold 10,
10 prior in-window timestamps yield `true` and 9 yield `false`, and the
persisted list is exactly the in-window timestamps plus the current
one (out-of-window timestamps never contribute). -/
theorem checkEmailRate_iff
    (now : Int) (threshold window : Nat) (stored : List Int) :
    ((checkEmailRate now threshold window stored).1 = true ↔
      (stored.filter (fun ts => now - ts < (window : Int))).length + 1 >
        threshold) ∧
    ((checkEmailRate now threshold window stored).2 =
      stored.filter (fun ts => now - ts < (window : Int)) ++ [now]) ∧
    ((stored.filter (fun ts => now - ts < (window : Int))).length = 10 →
      (checkEmailRate now 10 window stored).1 = true) ∧
    ((stored.filter (fun ts => now - ts < (window : Int))).length = 9 →
      (checkEmailRate now 10 window stored).1 = false) := by
  have hgen : ∀ t : Nat, ((checkEmailRate now t window stored).1 = true ↔
      (stored.filter (fun ts => now - ts < (window : Int))).length + 1 > t) := by
    intro t
    simp [checkEmailRate]
  refine ⟨hgen threshold, by simp [checkEmailRate], ?_, ?_⟩
  · intro h10
    rw [hgen 10, h10]
    omega
  · intro h9
    have hx : ¬((checkEmailRate now 10 window stored).1 = true) := by
      rw [hgen 10, h9]
      omega
    simpa using hx

/-- Witness for C5: ten prior in-window timestamps trip the detector. -/
theorem checkEmailRate_iff_witness :
    ((List.replicate 10 (600 : Int)).filter
      (fun ts => (1000 : Int) - ts < ((500 : Nat) : Int))).length = 10 ∧
    (checkEmailRate 1000 10 500 (List.replicate 10 (600 : Int))).1 = true :=
  ⟨by decide, (checkEmailRate_iff 1000 10 500 (List.replicate 10 600)).2.2.1
    (by decide)⟩

/-- C6: for an attachment with a payload, `classifyAttachment` answers
`ignore` exactly when the attachment is an image (per `IMAGE_TYPES`),
is marked inline/related, and its size is strictly below the
tracking-pixel threshold; size equal to the threshold is not ignored,
and threshold `0` disables the rule. -/
theorem classifyAttachment_ignore_iff
    (att : Attachment) (maxSize thr : Nat)
    (hpayload : contentTruthy att.content = true) :
    ((classifyAttachment att maxSize (some thr)).action = AttAction.ignore ↔
      (att.mimeType.toLower ∈ IMAGE_TYPES ∧
        (att.disposition = some "inline" ∨ att.related = true) ∧
        getAttachmentSize att < thr)) ∧
    (getAttachmentSize att = thr →
      (classifyAttachment att maxSize (some thr)).action ≠ AttAction.ignore) ∧
    (thr = 0 →
      (classifyAttachment att maxSize (some thr)).action ≠ AttAction.ignore) := by
  have hiff : (classifyAttachment att maxSize (some thr)).action =
      AttAction.ignore ↔
      (att.mimeType.toLower ∈ IMAGE_TYPES ∧
        (att.disposition = some "inline" ∨ att.related = true) ∧
        getAttachmentSize att < thr) := by
    simp only [classifyAttachment, Option.getD_some, hpayload,
      Bool.not_true, Bool.false_eq_true, if_false]
    split_ifs with h1 h2 h3 h4 <;> simp_all
  refine ⟨hiff, ?_, ?_⟩
  · intro heq hig
    have := (hiff.mp hig).2.2
    omega
  · intro h0 hig
    have := (hiff.mp hig).2.2
    omega

/-- Witness for C6: a 10-byte inline PNG with threshold 2048 is
ignored; with threshold 10 (equal size) or 0 it is not. -/
theorem classifyAttachment_ignore_iff_witness :
    (contentTruthy (some (AttContent.bin 10)) = true) ∧
    ((classifyAttachment
        { content := some (AttContent.bin 10), mimeType := "image/png",
          disposition := some "inline", related := false }
        5242880 (some 2048)).action = AttAction.ignore ↔
      ((("image/png" : String).toLower ∈ IMAGE_TYPES ∧
        ((some "inline" : Option String) = some "inline" ∨ (false : Bool) = true) ∧
        getAttachmentSize
          { content := some (AttContent.bin 10), mimeType := "image/png",
            disposition := some "inline", related := false } < 2048))) := by
  have h := classifyAttachment_ignore_iff
    { content := some (AttContent.bin 10), mimeType := "image/png",
      disposition := some "inline", related := false }
    5242880 2048 (by decide)
  exact ⟨by decide, h.1⟩

/-- Counterexample to C7: when both decoded fields are garbled and the
fallback decode succeeds with the string `"ok"`, the html field —
although flagged as garbled — is returned untouched rather than
replaced by the recovered string. -/
theorem tryFixBodyEncoding_both_garbled_cex :
    detectGarbled "�" = true ∧
    tryFixBodyEncoding (fun _ => some [1]) (fun _ => some ⟨"ok", "gbk"⟩)
      [0] "�" "�" = ("ok", "�") ∧
    ("�" : String) ≠ "ok" := by
  refine ⟨by decide, by decide, by decide⟩

/-- C7 (amended): if neither field contains U+FFFD both are returned
unchanged; otherwise, when body-byte extraction and the fallback decode
succeed, the text field is replaced when it was garbled (the html field
is then returned untouched even if also garbled), and the html field is
replaced only when the text field was clean. -/
theorem tryFixBodyEncoding_replacement
    (ext : List Nat → Option (List Nat))
    (dec : List Nat → Option DecodeResult)
    (raw : List Nat) (text html : String) :
    (detectGarbled text = false → detectGarbled html = false →
      tryFixBodyEncoding ext dec raw text html = (text, html)) ∧
    (∀ bytes res, ext raw = some bytes → dec bytes = some res →
      (detectGarbled text = true →
        tryFixBodyEncoding ext dec raw text html = (res.text, html)) ∧
      (detectGarbled text = false → detectGarbled html = true →
        tryFixBodyEncoding ext dec raw text html = (text, res.text))) := by
  refine ⟨?_, ?_⟩
  · intro ht hh
    simp [tryFixBodyEncoding, ht, hh]
  · intro bytes res hext hdec
    refine ⟨?_, ?_⟩
    · intro ht
      simp [tryFixBodyEncoding, ht, hext, hdec]
    · intro ht hh
      simp [tryFixBodyEncoding, ht, hh, hext, hdec]

/-- Witness for C7 (amended): a garbled text field is replaced by the
recovered string and the clean html field is untouched. -/
theorem tryFixBodyEncoding_replacement_witness :
    detectGarbled "�" = true ∧
    tryFixBodyEncoding (fun _ => some [1]) (fun _ => some ⟨"ok", "gbk"⟩)
      [0] "�" "clean" = ("ok", "clean") :=
  ⟨by decide,
   ((tryFixBodyEncoding_replacement (fun _ => some [1])
      (fun _ => some ⟨"ok", "gbk"⟩) [0] "�" "clean").2
      [1] ⟨"ok", "gbk"⟩ rfl rfl).1 (by decide)⟩

/-- C8 (code bug): on a multipart message whose `text/plain` part body
is the byte `0x80`, `buildStrippedEml` keeps the part (its Content-Type
starts with `text/`) yet returns its body byte changed to `0xAC`: the
windows-1252 decoder behind the `latin1` label maps `0x80` to U+20AC,
and the `charCodeAt & 0xFF` re-encoding truncates that to `0xAC`, so
the kept text part is not byte-for-byte unchanged. -/
theorem buildStrippedEml_alters_kept_text_part :
    buildStrippedEml c8FailingInput = c8FailingInput.set 78 0xAC ∧
    c8FailingInput[78]? = some 0x80 ∧
    buildStrippedEml c8FailingInput ≠ c8FailingInput := by
  refine ⟨by decide, by decide, by decide⟩

/-- C10: the `star` callback checks a separate starred-storage budget:
if the aggregate size of already-starred entries plus the target
entry's own size exceeds the limit, the index is left untouched and not
written back; otherwise the found entry's `starred` flag is set and the
index is persisted. -/
theorem starEntry_star_budget
    (starMax : Nat) (idx : EmailIndex) (notifId : Nat) (entry : Entry)
    (hfind : idx.entries.find? (fun e => e.id == notifId) = some entry) :
    (idx.entries.foldl (fun s e => if e.starred then s + entrySize e else s) 0 +
        entrySize entry > starMax →
      starEntry starMax idx notifId = (idx, false)) ∧
    (idx.entries.foldl (fun s e => if e.starred then s + entrySize e else s) 0 +
        entrySize entry ≤ starMax →
      starEntry starMax idx notifId =
        ({ idx with entries := setStarredFirst notifId idx.entries }, true)) := by
  constructor
  · intro hover
    simp only [starEntry, hfind]
    rw [if_pos hover]
  · intro hunder
    simp only [starEntry, hfind]
    rw [if_neg (by omega)]

/-- Witness for C10: starring the 6000-byte entry of `wIndex` under a
100-byte starred budget is refused and leaves the index unchanged;
under the default 50 MiB budget it succeeds. -/
theorem starEntry_star_budget_witness :
    (wIndex.entries.find? (fun e => e.id == 1) = some wEntryOldBig) ∧
    starEntry 100 wIndex 1 = (wIndex, false) ∧
    starEntry 52428800 wIndex 1 =
      ({ wIndex with entries := setStarredFirst 1 wIndex.entries }, true) := by
  have h := starEntry_star_budget 100 wIndex 1 wEntryOldBig (by decide)
  have h' := starEntry_star_budget 52428800 wIndex 1 wEntryOldBig (by decide)
  exact ⟨by decide, h.1 (by decide), h'.2 (by decide)⟩

end CftgEdc
